import Mathlib

/-!
Verification of the recursive-descent expression evaluator in
`expression_parser.py`.

The development is a shallow embedding of the source file:

* Numeric values are modeled as `ℚ` (exact rational arithmetic).  Python
  evaluates over IEEE-754 doubles; every concrete input appearing in the
  theorems below involves only small integers and exact dyadic steps, so
  the rational model and the float model agree on them.
* Each Python `raise` site becomes a distinct constructor of `Err`:
  `ParserError` raised through `Lexer.error`, the two bare `Exception`
  raises (unrecognized character in `peek`, end of source in `parse_F`),
  the `IndexError` that Python string indexing raises out of range, and
  the `ZeroDivisionError` of `1 / F` when `F == 0`.
* `StopIteration` from `__next__` is caught by every caller, so `next`
  returns an `Option` instead.
* The mutually recursive grammar rules are embedded as one fuel-indexed
  function `parseRule` (structural recursion on the fuel); `parse` runs it
  with fuel `3 * length + 3`, and a theorem below proves this fuel is
  never exhausted, which is exactly the termination argument for the
  Python recursion.
-/

/-- Error values, one constructor per `raise` site of the source. -/
inductive Err where
  /-- `ParserError` raised by `Lexer.error` (message plus `self.current`). -/
  | parserError (msg : String) (pos : Int)
  /-- bare `Exception` raised in `Lexer.peek` on an unrecognized character. -/
  | unexpectedChar (pos : Int)
  /-- bare `Exception("Unexpected end of source.")` raised in `parse_F`. -/
  | unexpectedEnd
  /-- `IndexError` from Python string indexing out of range. -/
  | indexError
  /-- `ZeroDivisionError` from `1 / F` with `F == 0`. -/
  | zeroDivision
  /-- fuel exhaustion of the embedding; proved unreachable below. -/
  | outOfFuel
deriving DecidableEq

/-- Tokens: kind plus lexeme, as produced by `Lexer.peek`. -/
inductive Tok where
  | openPar
  | closePar
  | operator (c : Char)
  | num (s : List Char)
deriving DecidableEq

/-- Lexer state: the borrowed input plus the two cursor fields.
`current` and `previous` are `Int` because `previous` is initialized
to `-1` in `__init__`. -/
structure Lexer where
  data : List Char
  current : Int
  previous : Int
deriving DecidableEq

/-- `Lexer.OPEN_PAR = 1` -/
def Lexer.OPEN_PAR : Nat := 1
/-- `Lexer.CLOSE_PAR = 2` -/
def Lexer.CLOSE_PAR : Nat := 2
/-- `Lexer.OPERATOR = 3` -/
def Lexer.OPERATOR : Nat := 3
/-- `Lexer.NUM = 4` -/
def Lexer.NUM : Nat := 4

/-- Python string indexing `data[i]`: negative indices count from the
end, out-of-range raises `IndexError`. -/
def pyGet (l : List Char) (i : Int) : Except Err Char :=
  let n : Int := l.length
  let j : Int := if i < 0 then n + i else i
  if 0 ≤ j then
    match l[j.toNat]? with
    | some c => .ok c
    | none => .error .indexError
  else .error .indexError

/-- Python slicing `data[i:]`. -/
def pySliceFrom (l : List Char) (i : Int) : List Char :=
  let n : Int := l.length
  let start : Int := if i < 0 then max 0 (n + i) else min i n
  l.drop start.toNat

/-- membership in the Python string `" \t\n\r"`. -/
def isWs (c : Char) : Bool :=
  c == ' ' || c == '\t' || c == '\n' || c == '\r'

/-- the whitespace loop `while self.data[current] in " \t\n\r": current += 1`.
The loop either stops on a non-whitespace character or runs off the end of
the string, where Python indexing raises `IndexError`.  The `fuel`
argument only makes the recursion structural; `2 * length + 2` steps are
always enough to reach one of the two outcomes, so the `0` case is
unreachable when called from `peekAux`. -/
def skipWs (l : List Char) : Nat → Int → Except Err Int
  | 0, _ => .error .indexError
  | fuel + 1, i =>
    match pyGet l i with
    | .error e => .error e
    | .ok c => if isWs c then skipWs l fuel (i + 1) else .ok i

/-- `\d` of the pattern (ASCII digits). -/
def isDig (c : Char) : Bool := c.isDigit

/-- the group `(\d+(\.\d*)?|\.\d+)` of `num_re`, matched greedily at the
start of `l`; returns the matched prefix and the rest. -/
def matchBody (l : List Char) : Option (List Char × List Char) :=
  let p := l.span isDig
  if p.1.isEmpty then
    match l with
    | '.' :: r =>
      let q := r.span isDig
      if q.1.isEmpty then none else some ('.' :: q.1, q.2)
    | _ => none
  else
    match p.2 with
    | '.' :: r =>
      let q := r.span isDig
      some (p.1 ++ '.' :: q.1, q.2)
    | _ => some (p.1, p.2)

/-- the optional exponent group `(e\d+)?` of `num_re`. -/
def matchExp (l : List Char) : List Char × List Char :=
  match l with
  | 'e' :: r =>
    let q := r.span isDig
    if q.1.isEmpty then ([], l) else ('e' :: q.1, q.2)
  | _ => ([], l)

/-- the part of the number pattern after the optional sign: the body
group followed by the optional exponent group. -/
def pyNumTail (sgn body : List Char) : Option (List Char) :=
  match matchBody body with
  | none => none
  | some br => some (sgn ++ br.1 ++ (matchExp br.2).1)

/-- `self.num_re.match(...)` for `num_re = [+-]?(\d+(\.\d*)?|\.\d+)(e\d+)?`:
the matched prefix, or `none`.  The optional sign backtracks to the empty
alternative only if the body fails, and the body can never start with a
sign, so the overall match fails in that case. -/
def pyNumMatch (l : List Char) : Option (List Char) :=
  match l with
  | '+' :: r => pyNumTail ['+'] r
  | '-' :: r => pyNumTail ['-'] r
  | _ => pyNumTail [] l

/-- value of a decimal digit string (`int` of the digits). -/
def digitsToNat (l : List Char) : Nat :=
  l.foldl (fun a c => 10 * a + (c.toNat - 48)) 0

/-- `float(value)` on a lexeme matched by `num_re`, over `ℚ`:
optional sign, integer part, optional fraction, optional `e` exponent. -/
def numVal (s : List Char) : ℚ :=
  let sp : ℚ × List Char :=
    match s with
    | '-' :: r => (-1, r)
    | '+' :: r => (1, r)
    | r => (1, r)
  let ip := sp.2.span isDig
  let fp : List Char × List Char :=
    match ip.2 with
    | '.' :: r => r.span isDig
    | r => ([], r)
  let ex : Nat :=
    match fp.2 with
    | 'e' :: r => digitsToNat (r.takeWhile isDig)
    | _ => 0
  sp.1 * ((digitsToNat ip.1 : ℚ) + (digitsToNat fp.1 : ℚ) / (10 : ℚ) ^ (fp.1).length)
    * (10 : ℚ) ^ ex

/-- `Lexer.peek`, as a function of the two fields it reads
(`self.data` and `self.current`).  Returns `(some token, new_current)`,
`(none, current)` at end of input (the `(None, None, self.current)`
triple), or the raised error. -/
def peekAux (d : List Char) (c0 : Int) : Except Err (Option Tok × Int) :=
  if c0 < (d.length : Int) then
    match skipWs d (2 * d.length + 2) c0 with
    | .error e => .error e
    | .ok i =>
      match pyGet d i with
      | .error e => .error e
      | .ok ch =>
        let cur : Int := i + 1
        if ch = '(' then .ok (some .openPar, cur)
        else if ch = ')' then .ok (some .closePar, cur)
        else if ch = '+' ∨ ch = '/' ∨ ch = '*' then .ok (some (.operator ch), cur)
        else
          match pyNumMatch (pySliceFrom d (cur - 1)) with
          | none =>
            if ch = '-' then .ok (some (.operator ch), cur)
            else .error (.unexpectedChar cur)
          | some m => .ok (some (.num m), cur + (m.length : Int) - 1)
  else .ok (none, c0)

/-- `Lexer(data)`: `current = 0`, `previous = -1`. -/
def Lexer.init (d : List Char) : Lexer := ⟨d, 0, -1⟩

/-- `Lexer.peek`. -/
def Lexer.peek (lx : Lexer) : Except Err (Option Tok × Int) :=
  peekAux lx.data lx.current

/-- `Lexer.put_back`: `self.current = self.previous` (no guard;
`previous` itself is left unchanged). -/
def Lexer.put_back (lx : Lexer) : Lexer :=
  ⟨lx.data, lx.previous, lx.previous⟩

/-- `Lexer.__next__`: peek, then commit (`previous = current`,
`current = new`); `StopIteration` is modeled as `.ok none`. -/
def Lexer.next (lx : Lexer) : Except Err (Option (Tok × Lexer)) :=
  match lx.peek with
  | .error e => .error e
  | .ok (some t, cur) => .ok (some (t, ⟨lx.data, cur, lx.current⟩))
  | .ok (none, _) => .ok none

/-- `Lexer.error`: the `ParserError` it raises, carrying the message and
`self.current` (the context snippet of the Python message is a function
of these two and the input, so it is not duplicated here). -/
def Lexer.error (lx : Lexer) (msg : String) : Err :=
  .parserError msg lx.current

/-- token kind as the Python class constants. -/
def tokKind : Tok → Nat
  | .openPar => Lexer.OPEN_PAR
  | .closePar => Lexer.CLOSE_PAR
  | .operator _ => Lexer.OPERATOR
  | .num _ => Lexer.NUM

/-- the lexeme string of a token. -/
def tokLexeme : Tok → List Char
  | .openPar => ['(']
  | .closePar => [')']
  | .operator c => [c]
  | .num s => s

/-- `token == Lexer.OPERATOR and operator in "+-"`. -/
def isAddOp : Tok → Bool
  | .operator c => c == '+' || c == '-'
  | _ => false

/-- `token == Lexer.OPERATOR and operator in "*/"`. -/
def isMulOp : Tok → Bool
  | .operator c => c == '*' || c == '/'
  | _ => false

/-- Python `a or b` on numbers: `b` if `a` is falsy (zero), else `a`. -/
def pyOr (a b : ℚ) : ℚ := if a = 0 then b else a

/-- the five grammar rules. -/
inductive Rule where
  | E
  | Ep
  | T
  | Tp
  | F
deriving DecidableEq

/-- The five mutually recursive parse functions of the source
(`parse_E`, `parse_E_prime`, `parse_T`, `parse_T_prime`, `parse_F`),
embedded as one function indexed by the rule, with fuel making the
recursion structural.  Each body mirrors the corresponding Python
function line by line; the lexer is threaded explicitly. -/
def parseRule : Nat → Rule → Lexer → Except Err (ℚ × Lexer)
  | 0, _, _ => .error .outOfFuel
  | f + 1, .E, data =>
    -- E -> TE'  { $0 = T + (E' or 0) }
    match parseRule f .T data with
    | .error e => .error e
    | .ok (T, data) =>
      match parseRule f .Ep data with
      | .error e => .error e
      | .ok (E_prime, data) => .ok (T + pyOr E_prime 0, data)
  | f + 1, .Ep, data =>
    match data.next with
    | .error e => .error e
    | .ok none => .ok (0, data)   -- StopIteration: E' -> &  { $0 = 0 }
    | .ok (some (tok, data1)) =>
      if isAddOp tok then
        -- E' -> +TE' { $0 = T + (E' or 0) } | -TE' { $0 = -1*T + (E' or 0) }
        match parseRule f .T data1 with
        | .error e => .error e
        | .ok (T, data2) =>
          match parseRule f .Ep data2 with
          | .error e => .error e
          | .ok (E_prime, data3) =>
            .ok ((if tokLexeme tok = ['+'] then T else -1 * T) + pyOr E_prime 0,
              data3)
      else if tokKind tok ∉ [Lexer.OPERATOR, Lexer.OPEN_PAR, Lexer.CLOSE_PAR] then
        .error (data1.error ("Invalid character: " ++ String.mk (tokLexeme tok)))
      else
        -- E' -> &  { $0 = 0 }, put the token back
        .ok (0, data1.put_back)
  | f + 1, .T, data =>
    -- T -> FT'  { $0 = F * (T' or 1) }
    match parseRule f .F data with
    | .error e => .error e
    | .ok (F, data) =>
      match parseRule f .Tp data with
      | .error e => .error e
      | .ok (T_prime, data) => .ok (F * pyOr T_prime 1, data)
  | f + 1, .Tp, data =>
    match data.next with
    | .error e => .error e
    | .ok none => .ok (1, data)   -- StopIteration: T' -> &  { $0 = 1 }
    | .ok (some (tok, data1)) =>
      if isMulOp tok then
        -- T' -> *FT' { $0 = F*T' } | /FT' { $0 = (1/F)*T' }
        match parseRule f .F data1 with
        | .error e => .error e
        | .ok (F, data2) =>
          match parseRule f .Tp data2 with
          | .error e => .error e
          | .ok (T_prime, data3) =>
            if tokLexeme tok = ['*'] then .ok (F * T_prime, data3)
            else if F = 0 then .error .zeroDivision
            else .ok (1 / F * T_prime, data3)
      else if tokKind tok ∉ [Lexer.OPERATOR, Lexer.OPEN_PAR, Lexer.CLOSE_PAR] then
        .error (data1.error ("Invalid character: " ++ String.mk (tokLexeme tok)))
      else
        -- T' -> &  { $0 = 1 }, put the token back
        .ok (1, data1.put_back)
  | f + 1, .F, data =>
    match data.next with
    | .error e => .error e
    | .ok none => .error .unexpectedEnd   -- raise Exception("Unexpected end of source.")
    | .ok (some (tok, data1)) =>
      if tokKind tok = Lexer.OPEN_PAR then
        -- F -> (E)  { $0 = E }
        match parseRule f .E data1 with
        | .error e => .error e
        | .ok (E, data2) =>
          match data2.next with
          | .error e => .error e
          | .ok none => .error (data2.error "Unbalanced parenthesis.")
          | .ok (some (tok2, data3)) =>
            if (tokKind tok2, tokLexeme tok2) = (Lexer.CLOSE_PAR, [')']) then
              .ok (E, data3)
            else .error (data3.error "Unbalanced parenthesis.")
      else if tokKind tok = Lexer.NUM then
        -- F -> num  { $0 = float(num) }
        .ok (numVal (tokLexeme tok), data1)
      else .error (data1.error ("Unexpected token: " ++ String.mk (tokLexeme tok) ++ "."))

/-- `parse_E`. -/
def parse_E (f : Nat) (data : Lexer) : Except Err (ℚ × Lexer) :=
  parseRule f .E data

/-- `parse_E_prime`. -/
def parse_E_prime (f : Nat) (data : Lexer) : Except Err (ℚ × Lexer) :=
  parseRule f .Ep data

/-- `parse_T`. -/
def parse_T (f : Nat) (data : Lexer) : Except Err (ℚ × Lexer) :=
  parseRule f .T data

/-- `parse_T_prime`. -/
def parse_T_prime (f : Nat) (data : Lexer) : Except Err (ℚ × Lexer) :=
  parseRule f .Tp data

/-- `parse_F`. -/
def parse_F (f : Nat) (data : Lexer) : Except Err (ℚ × Lexer) :=
  parseRule f .F data

/-- `parse(source_code)`: build a lexer and run `parse_E`.  The fuel
`3 * length + 3` is an artifact of the embedding; the fuel-sufficiency
theorem below shows it is never exhausted. -/
def parse (source_code : String) : Except Err ℚ :=
  let lexer := Lexer.init source_code.data
  match parse_E (3 * source_code.data.length + 3) lexer with
  | .error e => .error e
  | .ok (v, _) => .ok v

/-- detects the (unreachable) fuel-exhaustion outcome of `parse`. -/
def fuelExhausted : Except Err ℚ → Bool
  | .error .outOfFuel => true
  | _ => false

/-- weight of each rule in the fuel bound `3 * remaining + weight`. -/
def wWeight : Rule → Int
  | .E => 3
  | .Ep => 3
  | .T => 2
  | .Tp => 2
  | .F => 1

/-- rules that always consume at least one token when they succeed. -/
def strictRule : Rule → Bool
  | .E => true
  | .T => true
  | .F => true
  | .Ep => false
  | .Tp => false

/-- guaranteed cursor advance of a successful rule. -/
def sGain (r : Rule) : Int := if strictRule r then 1 else 0

/-- postcondition of a successful rule: the input is unchanged, the
cursor advances by at least `sGain`, and it stays within the input
(unconditionally for the strict rules, and whenever it started within
the input for the tail rules). -/
def PostOk (r : Rule) (lx lx' : Lexer) : Prop :=
  lx'.data = lx.data ∧ lx.current + sGain r ≤ lx'.current ∧
    ((lx.current ≤ (lx.data.length : Int) ∨ strictRule r = true) →
      lx'.current ≤ (lx.data.length : Int))

/-! Helper lemmas about the lexer primitives. -/

/-- a successful Python index read is within range. -/
theorem pyGet_ok_bounds {l : List Char} {i : Int} {c : Char}
    (h : pyGet l i = .ok c) :
    i + 1 ≤ (l.length : Int) ∧ 0 ≤ (l.length : Int) + i := by
  simp only [pyGet] at h
  split at h
  · rename_i hi
    split at h
    · rename_i hj
      split at h
      · rename_i c2 hg
        have hlt := (List.getElem?_eq_some.mp hg).1
        omega
      · exact absurd h (by simp)
    · exact absurd h (by simp)
  · rename_i hi
    split at h
    · rename_i hj
      split at h
      · rename_i c2 hg
        have hlt := (List.getElem?_eq_some.mp hg).1
        omega
      · exact absurd h (by simp)
    · exact absurd h (by simp)

/-- Python indexing fails only with `IndexError`. -/
theorem pyGet_err_eq {l : List Char} {i : Int} {e : Err}
    (h : pyGet l i = .error e) : e = .indexError := by
  simp only [pyGet] at h
  split at h
  all_goals split at h
  all_goals try (injection h with h1; exact h1.symm)
  all_goals split at h
  all_goals first
    | (injection h with h1; exact h1.symm)
    | injection h

/-- the whitespace loop never moves the cursor backwards. -/
theorem skipWs_ok_le {l : List Char} :
    ∀ fuel (i j : Int), skipWs l fuel i = .ok j → i ≤ j := by
  intro fuel
  induction fuel with
  | zero => intro i j h; simp [skipWs] at h
  | succ f ih =>
    intro i j h
    simp only [skipWs] at h
    split at h
    · exact absurd h (by simp)
    · split at h
      · have := ih (i + 1) j h
        omega
      · injection h with h1
        omega

/-- the whitespace loop fails only with `IndexError`. -/
theorem skipWs_err_eq {l : List Char} :
    ∀ fuel (i : Int) (e : Err), skipWs l fuel i = .error e → e = .indexError := by
  intro fuel
  induction fuel with
  | zero =>
    intro i e h
    simp only [skipWs] at h
    injection h with h1
    exact h1.symm
  | succ f ih =>
    intro i e h
    simp only [skipWs] at h
    split at h
    · rename_i e2 hg
      injection h with h1
      exact h1 ▸ pyGet_err_eq hg
    · split at h
      · exact ih (i + 1) e h
      · exact absurd h (by simp)

/-- length of the Python slice `data[i:]` for an in-range `i`. -/
theorem pySliceFrom_len_le {l : List Char} {i : Int}
    (h1 : i < (l.length : Int)) (h2 : 0 ≤ (l.length : Int) + i) :
    ((pySliceFrom l i).length : Int) ≤ (l.length : Int) - i := by
  simp only [pySliceFrom, List.length_drop]
  by_cases hi : i < 0
  · rw [if_pos hi, max_eq_right h2]
    omega
  · rw [if_neg hi, min_eq_left (le_of_lt h1)]
    omega

/-- the body group of the number pattern matches a nonempty prefix. -/
theorem matchBody_append {l m rest : List Char}
    (h : matchBody l = some (m, rest)) : m ≠ [] ∧ m ++ rest = l := by
  simp only [matchBody, List.span_eq_take_drop] at h
  split at h
  · split at h
    · rename_i r
      split at h
      · exact absurd h (by simp)
      · injection h with h1
        injection h1 with hm hr
        subst hm
        subst hr
        refine ⟨by simp, ?_⟩
        simp [List.takeWhile_append_dropWhile]
    · exact absurd h (by simp)
  · rename_i hne
    split at h
    · rename_i r hr2
      injection h with h1
      injection h1 with hm hrest
      subst hm
      subst hrest
      constructor
      · intro hcon
        rw [List.append_eq_nil] at hcon
        simp [hcon.1] at hne
      · rw [List.append_assoc, List.cons_append, List.takeWhile_append_dropWhile, ← hr2,
          List.takeWhile_append_dropWhile]
    · injection h with h1
      injection h1 with hm hrest
      subst hm
      subst hrest
      constructor
      · intro hcon
        simp [hcon] at hne
      · exact List.takeWhile_append_dropWhile isDig l

/-- the exponent group splits its input. -/
theorem matchExp_append (l : List Char) : (matchExp l).1 ++ (matchExp l).2 = l := by
  rw [matchExp.eq_def]
  split
  · rename_i r
    simp only [List.span_eq_take_drop]
    split
    · rfl
    · simp [List.takeWhile_append_dropWhile]
  · rfl

/-- a match of sign-plus-tail is nonempty and no longer than its input. -/
theorem pyNumTail_len {sgn body m : List Char}
    (h : pyNumTail sgn body = some m) :
    1 ≤ m.length ∧ m.length ≤ sgn.length + body.length := by
  unfold pyNumTail at h
  split at h
  · exact absurd h (by simp)
  · rename_i br hb
    obtain ⟨br1, br2⟩ := br
    injection h with h1
    obtain ⟨hne, happ⟩ := matchBody_append hb
    have he := matchExp_append br2
    have hb1 : br1.length + br2.length = body.length := by
      rw [← happ]
      simp
    have hb2 : (matchExp br2).1.length + (matchExp br2).2.length = br2.length := by
      rw [← congrArg List.length he]
      simp
    have hb3 : 0 < br1.length := List.length_pos.mpr hne
    rw [← h1]
    simp only [List.length_append]
    omega

/-- a successful number match is nonempty and no longer than its input. -/
theorem pyNumMatch_len {l m : List Char} (h : pyNumMatch l = some m) :
    1 ≤ m.length ∧ m.length ≤ l.length := by
  unfold pyNumMatch at h
  split at h
  · rename_i r
    have := pyNumTail_len h
    simp only [List.length_cons, List.length_nil] at this ⊢
    omega
  · rename_i r
    have := pyNumTail_len h
    simp only [List.length_cons, List.length_nil] at this ⊢
    omega
  · have := pyNumTail_len h
    simp only [List.length_nil] at this
    omega

/-- a successful `peek` of a real token advances the cursor by at least
one position and stays within the input. -/
theorem peekAux_ok_bounds {d : List Char} {c0 : Int} {t : Tok} {cur : Int}
    (h : peekAux d c0 = .ok (some t, cur)) :
    c0 + 1 ≤ cur ∧ cur ≤ (d.length : Int) := by
  simp only [peekAux] at h
  split at h
  · rename_i hc0
    split at h
    · exact absurd h (by simp)
    · rename_i i hs
      have hle := skipWs_ok_le _ c0 i hs
      split at h
      · exact absurd h (by simp)
      · rename_i ch hg
        have hb := pyGet_ok_bounds hg
        split at h
        · injection h with h1
          injection h1 with hm hcur
          omega
        · split at h
          · injection h with h1
            injection h1 with hm hcur
            omega
          · split at h
            · injection h with h1
              injection h1 with hm hcur
              omega
            · split at h
              · split at h
                · injection h with h1
                  injection h1 with hm hcur
                  omega
                · exact absurd h (by simp)
              · rename_i m hnm
                injection h with h1
                injection h1 with hm hcur
                have hml := pyNumMatch_len hnm
                have hsl := pySliceFrom_len_le (l := d) (i := i + 1 - 1)
                  (by omega) (by omega)
                omega
  · rename_i hc0
    injection h with h1
    injection h1 with hm hcur
    exact absurd hm (by simp)

/-- `peek` never fails with the fuel marker. -/
theorem peekAux_err_ne {d : List Char} {c0 : Int} {e : Err}
    (h : peekAux d c0 = .error e) : e ≠ .outOfFuel := by
  simp only [peekAux] at h
  split at h
  · split at h
    · rename_i e2 hs
      injection h with h1
      rw [← h1, skipWs_err_eq _ c0 e2 hs]
      simp
    · rename_i i hs
      split at h
      · rename_i e2 hg
        injection h with h1
        rw [← h1, pyGet_err_eq hg]
        simp
      · rename_i ch hg
        split at h
        · exact absurd h (by simp)
        · split at h
          · exact absurd h (by simp)
          · split at h
            · exact absurd h (by simp)
            · split at h
              · split at h
                · exact absurd h (by simp)
                · injection h with h1
                  rw [← h1]
                  simp
              · exact absurd h (by simp)
  · exact absurd h (by simp)

/-- a successful `next` keeps the input, records the pre-advance cursor
in `previous`, and advances the cursor by at least one position while
staying within the input. -/
theorem Lexer.next_ok_inv {lx : Lexer} {t : Tok} {lx' : Lexer}
    (h : lx.next = .ok (some (t, lx'))) :
    lx'.data = lx.data ∧ lx'.previous = lx.current ∧
      lx.current + 1 ≤ lx'.current ∧ lx'.current ≤ (lx.data.length : Int) := by
  simp only [Lexer.next, Lexer.peek] at h
  split at h
  · exact absurd h (by simp)
  · rename_i t0 cur hp
    simp only [Except.ok.injEq, Option.some.injEq, Prod.mk.injEq] at h
    obtain ⟨ht0, hlx⟩ := h
    subst ht0
    subst hlx
    have hb := peekAux_ok_bounds hp
    exact ⟨rfl, rfl, hb.1, hb.2⟩
  · exact absurd h (by simp)

/-- `next` never fails with the fuel marker. -/
theorem Lexer.next_err_ne {lx : Lexer} {e : Err}
    (h : lx.next = .error e) : e ≠ .outOfFuel := by
  simp only [Lexer.next, Lexer.peek] at h
  split at h
  · rename_i e2 hp
    injection h with h1
    rw [← h1]
    exact peekAux_err_ne hp
  · exact absurd h (by simp)
  · exact absurd h (by simp)

/-- Combined invariant of the five rules, by induction on the fuel.
First component: a successful rule satisfies `PostOk` (input unchanged,
cursor monotone — strictly for `E`, `T`, `F` — and in bounds).  Second
component: with fuel at least `3 * remaining + wWeight r`, the rule
never fails with `outOfFuel`; this is the termination argument — every
cycle of the recursion consumes at least one character. -/
theorem parseRule_inv (f : Nat) :
    ∀ r lx,
      (∀ v lx', parseRule f r lx = .ok (v, lx') → PostOk r lx lx') ∧
      (0 ≤ (lx.data.length : Int) - lx.current →
        3 * ((lx.data.length : Int) - lx.current) + wWeight r ≤ (f : Int) →
        parseRule f r lx ≠ .error .outOfFuel) := by
  induction f with
  | zero =>
    intro r lx
    constructor
    · intro v lx' h
      simp [parseRule] at h
    · intro h0 hb hcon
      cases r <;> simp [wWeight] at hb <;> omega
  | succ f ih =>
    intro r lx
    cases r with
    | E =>
      constructor
      · intro v lx' h
        simp only [parseRule] at h
        split at h
        · exact absurd h (by simp)
        · rename_i Tv d1 hT
          split at h
          · exact absurd h (by simp)
          · rename_i Ev d2 hEp
            simp only [Except.ok.injEq, Prod.mk.injEq] at h
            obtain ⟨hv, hl⟩ := h
            subst hl
            have pT := (ih .T lx).1 _ _ hT
            have pEp := (ih .Ep d1).1 _ _ hEp
            simp [PostOk, sGain, strictRule] at pT pEp ⊢
            obtain ⟨hd1, hc1, hb1⟩ := pT
            obtain ⟨hd2, hc2, hb2⟩ := pEp
            rw [hd1] at hb2
            exact ⟨by rw [hd2, hd1], by omega, hb2 hb1⟩
      · intro h0 hb hcon
        simp only [parseRule] at hcon
        split at hcon
        · rename_i e hT
          injection hcon with h1
          subst h1
          exact (ih .T lx).2 h0 (by simp only [wWeight] at hb ⊢; omega) hT
        · rename_i Tv d1 hT
          split at hcon
          · rename_i e hEp
            injection hcon with h1
            subst h1
            have pT := (ih .T lx).1 _ _ hT
            simp [PostOk, sGain, strictRule] at pT
            obtain ⟨hd1, hc1, hb1⟩ := pT
            refine (ih .Ep d1).2 ?_ ?_ hEp
            · rw [hd1]
              omega
            · rw [hd1]
              simp only [wWeight] at hb ⊢
              omega
          · exact absurd hcon (by simp)
    | T =>
      constructor
      · intro v lx' h
        simp only [parseRule] at h
        split at h
        · exact absurd h (by simp)
        · rename_i Fv d1 hF
          split at h
          · exact absurd h (by simp)
          · rename_i Tv d2 hTp
            simp only [Except.ok.injEq, Prod.mk.injEq] at h
            obtain ⟨hv, hl⟩ := h
            subst hl
            have pF := (ih .F lx).1 _ _ hF
            have pTp := (ih .Tp d1).1 _ _ hTp
            simp [PostOk, sGain, strictRule] at pF pTp ⊢
            obtain ⟨hd1, hc1, hb1⟩ := pF
            obtain ⟨hd2, hc2, hb2⟩ := pTp
            rw [hd1] at hb2
            exact ⟨by rw [hd2, hd1], by omega, hb2 hb1⟩
      · intro h0 hb hcon
        simp only [parseRule] at hcon
        split at hcon
        · rename_i e hF
          injection hcon with h1
          subst h1
          exact (ih .F lx).2 h0 (by simp only [wWeight] at hb ⊢; omega) hF
        · rename_i Fv d1 hF
          split at hcon
          · rename_i e hTp
            injection hcon with h1
            subst h1
            have pF := (ih .F lx).1 _ _ hF
            simp [PostOk, sGain, strictRule] at pF
            obtain ⟨hd1, hc1, hb1⟩ := pF
            refine (ih .Tp d1).2 ?_ ?_ hTp
            · rw [hd1]
              omega
            · rw [hd1]
              simp only [wWeight] at hb ⊢
              omega
          · exact absurd hcon (by simp)
    | Ep =>
      constructor
      · intro v lx' h
        simp only [parseRule] at h
        split at h
        · exact absurd h (by simp)
        · rename_i hn
          simp only [Except.ok.injEq, Prod.mk.injEq] at h
          obtain ⟨hv, hl⟩ := h
          subst hl
          simp [PostOk, sGain, strictRule]
        · rename_i tok d1 hn
          have nI := Lexer.next_ok_inv hn
          obtain ⟨hd1, hp1, hc1, hl1⟩ := nI
          split at h
          · split at h
            · exact absurd h (by simp)
            · rename_i Tv d2 hT
              split at h
              · exact absurd h (by simp)
              · rename_i Ev d3 hEp
                simp only [Except.ok.injEq, Prod.mk.injEq] at h
                obtain ⟨hv, hl⟩ := h
                subst hl
                have pT := (ih .T d1).1 _ _ hT
                have pEp := (ih .Ep d2).1 _ _ hEp
                simp [PostOk, sGain, strictRule] at pT pEp ⊢
                obtain ⟨hd2, hc2, hb2⟩ := pT
                obtain ⟨hd3, hc3, hb3⟩ := pEp
                rw [hd1] at hb2
                rw [hd2, hd1] at hb3
                refine ⟨by rw [hd3, hd2, hd1], by omega, ?_⟩
                intro hmem
                exact hb3 hb2
          · split at h
            · exact absurd h (by simp)
            · simp only [Except.ok.injEq, Prod.mk.injEq] at h
              obtain ⟨hv, hl⟩ := h
              subst hl
              simp [PostOk, sGain, strictRule, Lexer.put_back, hp1, hd1]
      · intro h0 hb hcon
        simp only [parseRule] at hcon
        split at hcon
        · rename_i e hn
          injection hcon with h1
          exact Lexer.next_err_ne hn h1
        · exact absurd hcon (by simp)
        · rename_i tok d1 hn
          have nI := Lexer.next_ok_inv hn
          obtain ⟨hd1, hp1, hc1, hl1⟩ := nI
          split at hcon
          · split at hcon
            · rename_i e hT
              injection hcon with h1
              subst h1
              refine (ih .T d1).2 ?_ ?_ hT
              · rw [hd1]
                omega
              · rw [hd1]
                simp only [wWeight] at hb ⊢
                omega
            · rename_i Tv d2 hT
              split at hcon
              · rename_i e hEp
                injection hcon with h1
                subst h1
                have pT := (ih .T d1).1 _ _ hT
                simp [PostOk, sGain, strictRule] at pT
                obtain ⟨hd2, hc2, hb2⟩ := pT
                rw [hd1] at hb2
                refine (ih .Ep d2).2 ?_ ?_ hEp
                · rw [hd2, hd1]
                  omega
                · rw [hd2, hd1]
                  simp only [wWeight] at hb ⊢
                  omega
              · exact absurd hcon (by simp)
          · split at hcon
            · exact absurd hcon (by simp [Lexer.error])
            · exact absurd hcon (by simp)
    | Tp =>
      constructor
      · intro v lx' h
        simp only [parseRule] at h
        split at h
        · exact absurd h (by simp)
        · rename_i hn
          simp only [Except.ok.injEq, Prod.mk.injEq] at h
          obtain ⟨hv, hl⟩ := h
          subst hl
          simp [PostOk, sGain, strictRule]
        · rename_i tok d1 hn
          have nI := Lexer.next_ok_inv hn
          obtain ⟨hd1, hp1, hc1, hl1⟩ := nI
          split at h
          · split at h
            · exact absurd h (by simp)
            · rename_i Fv d2 hF
              split at h
              · exact absurd h (by simp)
              · rename_i Tv d3 hTp
                have pF := (ih .F d1).1 _ _ hF
                have pTp := (ih .Tp d2).1 _ _ hTp
                simp [PostOk, sGain, strictRule] at pF pTp
                obtain ⟨hd2, hc2, hb2⟩ := pF
                obtain ⟨hd3, hc3, hb3⟩ := pTp
                rw [hd1] at hb2
                rw [hd2, hd1] at hb3
                split at h
                · simp only [Except.ok.injEq, Prod.mk.injEq] at h
                  obtain ⟨hv, hl⟩ := h
                  subst hl
                  simp [PostOk, sGain, strictRule]
                  refine ⟨by rw [hd3, hd2, hd1], by omega, ?_⟩
                  intro hmem
                  exact hb3 hb2
                · split at h
                  · exact absurd h (by simp)
                  · simp only [Except.ok.injEq, Prod.mk.injEq] at h
                    obtain ⟨hv, hl⟩ := h
                    subst hl
                    simp [PostOk, sGain, strictRule]
                    refine ⟨by rw [hd3, hd2, hd1], by omega, ?_⟩
                    intro hmem
                    exact hb3 hb2
          · split at h
            · exact absurd h (by simp)
            · simp only [Except.ok.injEq, Prod.mk.injEq] at h
              obtain ⟨hv, hl⟩ := h
              subst hl
              simp [PostOk, sGain, strictRule, Lexer.put_back, hp1, hd1]
      · intro h0 hb hcon
        simp only [parseRule] at hcon
        split at hcon
        · rename_i e hn
          injection hcon with h1
          exact Lexer.next_err_ne hn h1
        · exact absurd hcon (by simp)
        · rename_i tok d1 hn
          have nI := Lexer.next_ok_inv hn
          obtain ⟨hd1, hp1, hc1, hl1⟩ := nI
          split at hcon
          · split at hcon
            · rename_i e hF
              injection hcon with h1
              subst h1
              refine (ih .F d1).2 ?_ ?_ hF
              · rw [hd1]
                omega
              · rw [hd1]
                simp only [wWeight] at hb ⊢
                omega
            · rename_i Fv d2 hF
              split at hcon
              · rename_i e hTp
                injection hcon with h1
                subst h1
                have pF := (ih .F d1).1 _ _ hF
                simp [PostOk, sGain, strictRule] at pF
                obtain ⟨hd2, hc2, hb2⟩ := pF
                rw [hd1] at hb2
                refine (ih .Tp d2).2 ?_ ?_ hTp
                · rw [hd2, hd1]
                  omega
                · rw [hd2, hd1]
                  simp only [wWeight] at hb ⊢
                  omega
              · split at hcon
                · exact absurd hcon (by simp)
                · split at hcon
                  · exact absurd hcon (by simp)
                  · exact absurd hcon (by simp)
          · split at hcon
            · exact absurd hcon (by simp [Lexer.error])
            · exact absurd hcon (by simp)
    | F =>
      constructor
      · intro v lx' h
        simp only [parseRule] at h
        split at h
        · exact absurd h (by simp)
        · exact absurd h (by simp)
        · rename_i tok d1 hn
          have nI := Lexer.next_ok_inv hn
          obtain ⟨hd1, hp1, hc1, hl1⟩ := nI
          split at h
          · split at h
            · exact absurd h (by simp)
            · rename_i Ev d2 hE
              split at h
              · exact absurd h (by simp)
              · exact absurd h (by simp)
              · rename_i tok2 d3 hn2
                have nI2 := Lexer.next_ok_inv hn2
                obtain ⟨hd3, hp3, hc3, hl3⟩ := nI2
                split at h
                · simp only [Except.ok.injEq, Prod.mk.injEq] at h
                  obtain ⟨hv, hl⟩ := h
                  subst hl
                  have pE := (ih .E d1).1 _ _ hE
                  simp [PostOk, sGain, strictRule] at pE ⊢
                  obtain ⟨hd2, hc2, hb2⟩ := pE
                  rw [hd2, hd1] at hl3
                  exact ⟨by rw [hd3, hd2, hd1], by omega, hl3⟩
                · exact absurd h (by simp)
          · split at h
            · simp only [Except.ok.injEq, Prod.mk.injEq] at h
              obtain ⟨hv, hl⟩ := h
              subst hl
              simp [PostOk, sGain, strictRule]
              exact ⟨hd1, hc1, hl1⟩
            · exact absurd h (by simp)
      · intro h0 hb hcon
        simp only [parseRule] at hcon
        split at hcon
        · rename_i e hn
          injection hcon with h1
          exact Lexer.next_err_ne hn h1
        · exact absurd hcon (by simp)
        · rename_i tok d1 hn
          have nI := Lexer.next_ok_inv hn
          obtain ⟨hd1, hp1, hc1, hl1⟩ := nI
          split at hcon
          · split at hcon
            · rename_i e hE
              injection hcon with h1
              subst h1
              refine (ih .E d1).2 ?_ ?_ hE
              · rw [hd1]
                omega
              · rw [hd1]
                simp only [wWeight] at hb ⊢
                omega
            · rename_i Ev d2 hE
              split at hcon
              · rename_i e hn2
                injection hcon with h1
                exact Lexer.next_err_ne hn2 h1
              · exact absurd hcon (by simp [Lexer.error])
              · rename_i tok2 d3 hn2
                split at hcon
                · exact absurd hcon (by simp)
                · exact absurd hcon (by simp [Lexer.error])
          · split at hcon
            · exact absurd hcon (by simp)
            · exact absurd hcon (by simp [Lexer.error])

/-- sanity checks mirroring the demonstration driver: precedence,
parentheses, unary minus and exponent literals all evaluate correctly. -/
theorem parse_sanity :
    parse "2 * 3 + 1" = .ok 7 ∧ parse "1 + 2 * 3" = .ok 7 ∧
      parse "(2 + 1) * 3" = .ok 9 ∧ parse "-1 - -2" = .ok 1 ∧
      parse "2.01e2 - 200" = .ok 1 ∧ parse "3 - ((8 + 3) * -2)" = .ok 25 :=
  ⟨by with_unfolding_all rfl, by with_unfolding_all rfl, by with_unfolding_all rfl,
    by with_unfolding_all rfl, by with_unfolding_all rfl, by with_unfolding_all rfl⟩

/-- C1: the claim fails on the code at two of its own example inputs.
`parse "2 * 0"` returns `2`, not `0`: `parse_T` computes
`F * (T_prime or 1)`, and the term tail `"* 0"` evaluates to `0`, which
is falsy in Python, so the tail is replaced by the identity `1` —
contradicting the code's own semantic comment `{ $0 = F * T' }`.
`parse "4-5"` raises `ParserError` instead of returning `-1`: the lexer
tokenizes `-5` as a `Number` (the number pattern matches the signed
literal), and `parse_T_prime` rejects a `Number` token at a tail
decision point. -/
theorem c1_parse_code_bug_eval :
    parse "2 * 0" = .ok 2 ∧
      parse "4-5" = .error (.parserError "Invalid character: -5" 3) :=
  ⟨by with_unfolding_all rfl, by with_unfolding_all rfl⟩

/-- C2: the claim fails on the code for `parse_T`.  On `"2 * 0"` the
factor is `2` and the (non-empty) term tail evaluates to `0`, but
`parse_T` returns `2 * 1 = 2`: the Python expression
`F * (T_prime or 1)` replaces a computed tail value of `0` by the
identity element `1`.  (For `parse_E` the analogous `(E_prime or 0)`
is numerically harmless since the replacement value is also `0`.) -/
theorem c2_parse_T_code_bug_eval :
    parse_T 17 (Lexer.init ("2 * 0".data)) =
        .ok (2, ⟨"2 * 0".data, 5, 3⟩) ∧
      parse_T_prime 16 (⟨"2 * 0".data, 1, 0⟩ : Lexer) =
        .ok (0, ⟨"2 * 0".data, 5, 3⟩) :=
  ⟨by with_unfolding_all rfl, by with_unfolding_all rfl⟩

/-- C3 counterexample: on `"1 / 0"` the code raises `ZeroDivisionError`
(Python float division by zero raises; it does not produce IEEE
infinity), so `parse` does not return a numeric result. -/
theorem c3_div_zero_counterexample :
    parse "1 / 0" = .error .zeroDivision := by
  with_unfolding_all rfl

/-- C3 amended: division with a nonzero divisor is ordinary division
(computed as `(1 / F) * T_prime`), while a zero divisor raises
`ZeroDivisionError` — it is not converted to infinity or NaN. -/
theorem c3_div_amended :
    parse "6 / 2" = .ok 3 ∧ parse "8 / 0" = .error .zeroDivision :=
  ⟨by with_unfolding_all rfl, by with_unfolding_all rfl⟩

/-- C4 counterexample: a stray close parenthesis after a complete
expression does not fail — `parse "1)"` returns `1`.  `parse_E_prime`
pushes the `)` back and returns, and the top-level `parse` never checks
that all input was consumed. -/
theorem c4_stray_close_counterexample : parse "1)" = .ok 1 := by
  with_unfolding_all rfl

/-- C4 amended: an unclosed open parenthesis (`"(1"`) fails with
`ParserError` (`"Unbalanced parenthesis."`, raised in `parse_F` when the
expected close parenthesis is missing), but a stray close parenthesis
(`"2)"`) is silently ignored and the prefix value is returned. -/
theorem c4_amended :
    parse "(1" = .error (.parserError "Unbalanced parenthesis." 2) ∧
      parse "2)" = .ok 2 :=
  ⟨by with_unfolding_all rfl, by with_unfolding_all rfl⟩

/-- C5 counterexample: an unrecognized character does not fail with one
of the two documented error kinds — the lexer raises a *bare*
`Exception` (modeled `unexpectedChar`), not the `ParserError` class the
module defines (there is no separate `LexError` class at all). -/
theorem c5_error_kind_counterexample :
    parse "$" = .error (.unexpectedChar 1) := by
  with_unfolding_all rfl

/-- C5 amended: malformed input always fails, but with two different
exception species: end of input where a `Factor` is required raises a
bare `Exception("Unexpected end of source.")` (empty input, `"1 +"`),
and an unrecognized character raises a bare `Exception` carrying the
position; only grammar violations routed through `Lexer.error` raise
`ParserError` with the offending position (e.g. a `Number` at a tail
decision point). -/
theorem c5_amended :
    parse "" = .error .unexpectedEnd ∧
      parse "1 +" = .error .unexpectedEnd ∧
      parse "1 1" = .error (.parserError "Invalid character: 1" 3) :=
  ⟨by with_unfolding_all rfl, by with_unfolding_all rfl, by with_unfolding_all rfl⟩

/-- C6: the claim fails on the code.  With only whitespace after the
last token, the whitespace-skipping loop in `Lexer.peek` runs past the
end of the string and Python indexing raises `IndexError`:
`parse "1 + 1 "` (trailing space) raises `IndexError` while
`parse "1 + 1"` returns `2`. -/
theorem c6_trailing_ws_code_bug_eval :
    parse "1 + 1 " = .error .indexError ∧ parse "1 + 1" = .ok 2 :=
  ⟨by with_unfolding_all rfl, by with_unfolding_all rfl⟩

/-- C7: trailing garbage is not silently truncated: `parse "1 1 1"`
raises `ParserError` on the second `Number` token (at position 3, with
message `"Invalid character: 1"`), because a `Number` is not permitted
at a tail decision point (the term tail rejects it first). -/
theorem c7_trailing_garbage :
    parse "1 1 1" = .error (.parserError "Invalid character: 1" 3) := by
  with_unfolding_all rfl

/-- C8: `next` followed immediately by `put_back` restores the cursor
to its pre-`next` value, so repeating `next` yields the same token (and
the same committed lexer state) again. -/
theorem c8_put_back_restores (lx lx' : Lexer) (t : Tok)
    (h : lx.next = .ok (some (t, lx'))) :
    lx'.put_back.next = .ok (some (t, lx')) := by
  simp only [Lexer.next, Lexer.peek] at h ⊢
  cases hp : peekAux lx.data lx.current with
  | error e =>
    rw [hp] at h
    exact absurd h (by simp)
  | ok p =>
    obtain ⟨ot, cur⟩ := p
    rw [hp] at h
    cases ot with
    | none => exact absurd h (by simp)
    | some t0 =>
      simp only [Except.ok.injEq, Option.some.injEq, Prod.mk.injEq] at h
      obtain ⟨ht0, hlx⟩ := h
      subst ht0
      subst hlx
      simp only [Lexer.put_back]
      rw [hp]

/-- C8 witness: on the input `"1+2"`, `next` produces the token `1`
with committed state `⟨"1+2", 1, 0⟩`, and after `put_back` the next
`next` produces the same token and state again. -/
theorem c8_put_back_restores_witness :
    (Lexer.init ("1+2".data)).next =
        .ok (some (.num ['1'], ⟨"1+2".data, 1, 0⟩)) ∧
      (Lexer.put_back ⟨"1+2".data, 1, 0⟩).next =
        .ok (some (.num ['1'], ⟨"1+2".data, 1, 0⟩)) :=
  ⟨rfl,
    c8_put_back_restores (Lexer.init ("1+2".data)) ⟨"1+2".data, 1, 0⟩
      (Tok.num ['1']) rfl⟩

/-- C9 counterexample: a second consecutive `put_back` is not rejected
and raises nothing — `put_back` is a bare assignment
`self.current = self.previous` with no guard, so the second call
silently succeeds as a no-op and the lexer keeps working. -/
theorem c9_counterexample :
    Lexer.put_back (Lexer.put_back ⟨"1+2".data, 1, 0⟩) =
        Lexer.put_back ⟨"1+2".data, 1, 0⟩ ∧
      (Lexer.put_back (Lexer.put_back ⟨"1+2".data, 1, 0⟩)).next =
        .ok (some (.num ['1'], ⟨"1+2".data, 1, 0⟩)) :=
  ⟨rfl, rfl⟩

/-- C9 amended: `put_back` is idempotent — a second consecutive call
silently repeats the assignment `current = previous` and leaves the
state unchanged; no error is raised and nothing rejects it. -/
theorem c9_put_back_idem (lx : Lexer) :
    lx.put_back.put_back = lx.put_back := rfl

/-- C10: `parse` terminates on every input, returning a value or an
error: the fuel `3 * length + 3` of the embedding is never exhausted,
because every cycle through the mutually recursive rules consumes at
least one token (hence at least one character), so the recursion depth
is bounded by the input length (`parseRule_inv`). -/
theorem c10_parse_terminates (s : String) : fuelExhausted (parse s) = false := by
  have hne : parseRule (3 * s.data.length + 3) .E (Lexer.init s.data) ≠
      .error .outOfFuel := by
    apply (parseRule_inv (3 * s.data.length + 3) .E (Lexer.init s.data)).2
    · simp [Lexer.init]
    · simp only [Lexer.init, wWeight]
      push_cast
      omega
  simp only [parse, parse_E]
  split
  · rename_i e hE
    cases e <;> first
      | rfl
      | exact absurd hE hne
  · rfl
